import Mathlib

/-!
Shallow embedding of the transaction-aggregation and budget-reconciliation
engine of `src/main.py` (class `Writer` and its helpers), together with
theorems settling the frozen claims C1–C10.

Modelling conventions:
* Money amounts are rationals (`ℚ`); the source works in Python/pandas floats
  but every claim is about exact bookkeeping arithmetic.
* Dates are serial day numbers (`ℕ`); `weekday t = t.date % 7` with
  0 = Sunday, matching the `%w` strftime key used by the day pivot.
* Python strings are Lean `String`s; the char-level helpers below
  (`pyContains`, `pyStrip`, `splitFirst`, `splitOnChar`) re-implement the
  exact Python operations (`in`, `str.strip(chars)`, `str.split(sep, 1)`,
  `str.split(sep)`) by structural recursion over `String.data`.
* `float(...)` applied to the cashback field is modelled by `pyFloat?`,
  which accepts the plain decimal literals (optional sign, digits, at most
  one point) and rejects everything else, as CPython does on such inputs.
* pandas dataframes become lists of records; `pivot_table(index = k)`
  becomes "distinct keys, sorted ascending, each with its group sums";
  a Python `dict` becomes an association list updated in place
  (`bal_set`), new keys appended, as Python dicts do.
* numpy/pandas division never raises: `x / 0` is `nan` (x = 0) or `±inf`.
  `PFloat` carries these sentinel values and `npDiv` is that division.
-/

namespace TxnTracker

/-- The char set of `note.strip('%\n\r\t ')` in `Writer.parse_note`. -/
def stripSet : List Char := ['%', '\n', '\r', '\t', ' ']

/-- Python `c in s` for a single-character needle (the only way the source
uses `in` on strings: `sep in note` with the default `sep = '|'`, and
`'&' not in cat`). -/
def pyContains (s : String) (c : Char) : Bool := s.data.contains c

/-- Python `s.strip(chars)` for the fixed char set `stripSet`: drop the
listed characters from both ends. -/
def pyStrip (s : String) : String :=
  ⟨((s.data.dropWhile (fun c => stripSet.contains c)).reverse.dropWhile
      (fun c => stripSet.contains c)).reverse⟩

/-- Python `s.strip()` (no argument): drop whitespace from both ends. -/
def pyTrim (s : String) : String :=
  ⟨((s.data.dropWhile Char.isWhitespace).reverse.dropWhile Char.isWhitespace).reverse⟩

/-- Python `s.split(sep, 1)` for a one-character separator that occurs in
`s`: the text before the first occurrence and the text after it. -/
def splitFirst (sep : Char) (s : String) : String × String :=
  (⟨s.data.takeWhile (fun c => c ≠ sep)⟩,
   ⟨(s.data.dropWhile (fun c => c ≠ sep)).drop 1⟩)

/-- Python `s.split(sep)` on a one-character separator, over char lists. -/
def splitOnChar (c : Char) : List Char → List (List Char)
  | [] => [[]]
  | x :: xs =>
    let r := splitOnChar c xs
    if x = c then [] :: r
    else
      match r with
      | [] => [[x]]
      | y :: ys => (x :: y) :: ys

/-- Digits of a char list read as a base-10 natural number. -/
def digitsToNat (l : List Char) : ℕ :=
  l.foldl (fun n c => 10 * n + (c.toNat - 48)) 0

/-- Python `float(s)` on the already-stripped cashback field, as an
`Option`: `some` of the value on a plain decimal literal (optional sign,
digits with at most one decimal point, at least one digit), `none` when
CPython would raise `ValueError`. (Exotic accepted spellings such as
exponents, `inf`/`nan` words or `_` separators never appear in the data
this field holds and are modelled as unparsable.) -/
def pyFloat? (s : String) : Option ℚ :=
  let signed : ℚ × List Char :=
    match s.data with
    | '-' :: rest => (-1, rest)
    | '+' :: rest => (1, rest)
    | l => (1, l)
  let intPart := signed.2.takeWhile Char.isDigit
  let rest := signed.2.dropWhile Char.isDigit
  match rest with
  | [] =>
    if intPart.isEmpty then none
    else some (signed.1 * (digitsToNat intPart : ℚ))
  | '.' :: frac =>
    if frac.all Char.isDigit ∧ ¬(intPart.isEmpty ∧ frac.isEmpty) then
      some (signed.1 * ((digitsToNat intPart : ℚ)
        + (digitsToNat frac : ℚ) / (10 : ℚ) ^ frac.length))
    else none
  | _ => none

/-- `Writer.parse_note`: split the raw note on the first separator; the
head (stripped of `%`, whitespace) is the clean note and the stripped tail
parsed as a float gives the cashback ratio (value / 100). pandas renders a
missing note as the string form of `float('nan')`, hence the `"nan"`
special case. When `float` raises, `note` has already been rebound to the
stripped head, so the fallback `return note, 0.0` returns that head, not
the original text. A note without the separator is returned verbatim with
ratio 0. -/
def parse_note (rawNote : String) (sep : Char) : String × ℚ :=
  let note := if rawNote = "nan" then "" else rawNote
  if pyContains note sep then
    let head := pyStrip (splitFirst sep note).1
    let tailSeg := pyStrip (splitFirst sep note).2
    match pyFloat? tailSeg with
    | some q => (head, q / 100)
    | none => (head, 0)
  else (note, 0)

/-- One raw CSV row of a month's transaction export, amounts still in the
source sign convention (inflow-positive). -/
structure RawRecord where
  date : ℕ
  category : String
  amount : ℚ
  note : String
  account : String
deriving DecidableEq, Repr

/-- One normalized transaction as stored in `Writer.data[year][month]`:
amount negated to outflow-positive, note split from its cashback
annotation, reward derived. -/
structure Txn where
  date : ℕ
  category : String
  amount : ℚ
  note : String
  cashbackPct : ℚ
  cashbackReward : ℚ
  account : String
deriving DecidableEq, Repr

def DEFAULT_ACCOUNT : String := "Default"

def INCOME_CATEGORIES : List String :=
  ["Cashback", "Salary", "Fatherly Support", "Check", "Reward", "Sale",
   "Carry Over", "Interest", "Gift"]

/-- The dataframe pipeline of `Writer.read_month` (file access aside): sort
by date, negate amounts, drop `Carry Over` rows, parse notes, derive
`CashBack %` and `CashBack Reward`. -/
def read_month (rows : List RawRecord) : List Txn :=
  ((((List.insertionSort (fun a b : RawRecord => a.date ≤ b.date) rows).map
      (fun r => { r with amount := -r.amount })).filter
      (fun r => r.category ≠ "Carry Over")).map
    (fun r =>
      let p := parse_note r.note '|'
      { date := r.date, category := r.category, amount := r.amount,
        note := p.1, cashbackPct := p.2,
        cashbackReward := r.amount * p.2, account := r.account }))

/-! ## The transaction subsets `Writer.write_month` works with -/

/-- The rows of `data` on the default account, minus the income rows
(`income_condition`: an income category with a non-positive outflow). -/
def default_transactions (data : List Txn) : List Txn :=
  (data.filter (fun t => t.account = DEFAULT_ACCOUNT)).filter
    (fun t => ¬(t.category ∈ INCOME_CATEGORIES ∧ t.amount ≤ 0))

/-- `all_expenses`: every row whose category is not an income category. -/
def all_expenses (data : List Txn) : List Txn :=
  data.filter (fun t => t.category ∉ INCOME_CATEGORIES)

/-- `eligible_expenses`: expense rows outside `Investing` and `Transfer`. -/
def eligible_expenses (data : List Txn) : List Txn :=
  (all_expenses data).filter
    (fun t => t.category ∉ (["Investing", "Transfer"] : List String))

/-! ## The per-category pivot (`pivot_table(index = 'Category')` joined
with `value_counts`) -/

/-- One row of the category pivot: group sums of `Amount` and
`CashBack Reward` plus the row count of the category. -/
structure PivotRow where
  category : String
  amount : ℚ
  reward : ℚ
  count : ℕ
deriving DecidableEq, Repr

/-- The ascending code-point order on strings (what Python's sort uses),
written on the underlying char lists: `a ≤ b` as `¬ b < a`. -/
def strLe (a b : String) : Prop := ¬ (b.data < a.data)

instance : DecidableRel strLe :=
  fun a b => inferInstanceAs (Decidable (¬ (b.data < a.data)))

/-- The distinct categories of `txns`, ascending — the index a pandas
`pivot_table` produces. -/
def pivot_cats (txns : List Txn) : List String :=
  List.insertionSort strLe ((txns.map (fun t => t.category)).dedup)

/-- The pivot row of one category. -/
def pivot_row (txns : List Txn) (c : String) : PivotRow :=
  { category := c,
    amount := ((txns.filter (fun t => t.category = c)).map
      (fun t => t.amount)).sum,
    reward := ((txns.filter (fun t => t.category = c)).map
      (fun t => t.cashbackReward)).sum,
    count := (txns.filter (fun t => t.category = c)).length }

/-- The category pivot joined with per-category transaction counts. -/
def category_pivot (txns : List Txn) : List PivotRow :=
  (pivot_cats txns).map (pivot_row txns)

/-! ## The budget reconciler (`write_month` lines 687–716) -/

/-- One declared budget line (a row of the `{year}{month}budget.csv`). -/
structure BudgetLine where
  category : String
  expected : ℚ
deriving DecidableEq, Repr

/-- `set(map(lambda x: x.strip(), cat.split('&')))`: the names of a
composite budget category, split on the marker, whitespace-trimmed (used
only through membership, so a Lean list models the Python set). -/
def split_cats (cat : String) : List String :=
  (splitOnChar '&' cat.data).map (fun cs => pyTrim ⟨cs⟩)

/-- The `all_cats` set the loop over budget categories accumulates: every
name of a composite line's split together with every non-composite line's
category (again used only through membership). -/
def all_cats (budget : List BudgetLine) : List String :=
  budget.foldl
    (fun acc line =>
      if pyContains line.category '&' then acc ++ split_cats line.category
      else acc ++ [line.category])
    []

/-- A numpy/pandas float division result: a finite value or one of the
sentinels IEEE division by zero produces (numpy emits a warning, never an
exception). -/
inductive PFloat where
  | fin (q : ℚ)
  | posInf
  | negInf
  | nan
deriving DecidableEq, Repr

/-- numpy/pandas division: finite quotient on a nonzero denominator,
`nan` for `0 / 0`, signed infinity otherwise. -/
def npDiv (a b : ℚ) : PFloat :=
  if b = 0 then if a = 0 then .nan else if 0 < a then .posInf else .negInf
  else .fin (a / b)

/-- A sentinel (non-finite) division result. -/
def PFloat.isSentinel : PFloat → Bool
  | .fin _ => false
  | _ => true

/-- One annotated row of the `Budget Categories` table. -/
structure ReconRow where
  category : String
  expected : ℚ
  amount : ℚ
  remaining : ℚ
  usage : PFloat
  count : ℕ
deriving DecidableEq, Repr

/-- The residual filter of the `Other` row (lines 711–712): categories
that are unreferenced by any budget line (or are literally `Other`) and
are not `Transfer`. -/
def other_filter (cats : List String) (c : String) : Bool :=
  ((c ∉ cats) ∨ c = "Other") ∧ c ≠ "Transfer"

/-- One row of `budget_categories_df` after the whole reconciliation
(join on the category, composite fan-in, `fillna(0)`, the `Other`
special case, then `Remaining` and `Usage %`): the row only depends on
its own budget line, the pivot of the default transactions and the
complete `all_cats` set, so the dataframe is the map of this function
over the budget lines. Note the `Other` transaction count is
`len(pivot[...])` — the number of residual categories — where the
composite branch sums the counts. -/
def budget_row (budget : List BudgetLine) (data : List Txn)
    (line : BudgetLine) : ReconRow :=
  let pivot := category_pivot (default_transactions data)
  let cats := all_cats budget
  let ac : ℚ × ℕ :=
    if line.category = "Other" then
      (((pivot.filter (fun r => other_filter cats r.category)).map
          (fun r => r.amount)).sum,
       (pivot.filter (fun r => other_filter cats r.category)).length)
    else if pyContains line.category '&' then
      (((pivot.filter (fun r => r.category ∈ split_cats line.category)).map
          (fun r => r.amount)).sum,
       ((pivot.filter (fun r => r.category ∈ split_cats line.category)).map
          (fun r => r.count)).sum)
    else
      match pivot.find? (fun r => r.category = line.category) with
      | some r => (r.amount, r.count)
      | none => (0, 0)
  { category := line.category, expected := line.expected, amount := ac.1,
    remaining := line.expected - ac.1, usage := npDiv ac.1 line.expected,
    count := ac.2 }

/-- The `Budget Categories (Excluding Transfers)` table. -/
def budget_categories (budget : List BudgetLine) (data : List Txn) :
    List ReconRow :=
  budget.map (budget_row budget data)

/-- The `Other` actual amount as the claim words it: the sum of the
grouped amounts over every category not in the referenced-categories set
and not `Transfer` (for comparison with what the code computes). -/
def claimed_other_amount (budget : List BudgetLine) (data : List Txn) : ℚ :=
  (((category_pivot (default_transactions data)).filter
      (fun r => r.category ∉ all_cats budget ∧ r.category ≠ "Transfer")).map
    (fun r => r.amount)).sum

/-- The `Other` transaction count as the claim words it: the sum of the
grouped transaction counts over the same categories. -/
def claimed_other_count (budget : List BudgetLine) (data : List Txn) : ℕ :=
  (((category_pivot (default_transactions data)).filter
      (fun r => r.category ∉ all_cats budget ∧ r.category ≠ "Transfer")).map
    (fun r => r.count)).sum

/-! ## The balance ledger (`write_month` lines 592–599, `set_starting_balances`,
`get_balances`, `reset_balances`) -/

/-- `self.balances`: a Python dict account → value, as an association
list in insertion order. -/
abbrev Balances := List (String × ℚ)

/-- Dict read, `balances.get(a)` as an `Option`. -/
def bal_lookup (b : Balances) (a : String) : Option ℚ :=
  (b.find? (fun p => p.1 = a)).map (fun p => p.2)

/-- `balances.get(a, 0)`. -/
def bal_get (b : Balances) (a : String) : ℚ := (bal_lookup b a).getD 0

/-- `balances[a] = v`: update the key in place when present, append it
otherwise, exactly as a Python dict assignment behaves. -/
def bal_set : Balances → String → ℚ → Balances
  | [], a, v => [(a, v)]
  | p :: rest, a, v =>
    if p.1 = a then (a, v) :: rest else p :: bal_set rest a v

/-- `sum(self.balances.values())`. -/
def total_balance (b : Balances) : ℚ := (b.map (fun p => p.2)).sum

/-- `data.loc[data.Account != DEFAULT_ACCOUNT, 'Account'].sort_values().unique()`:
the distinct non-default accounts of the period, ascending. -/
def period_accounts (data : List Txn) : List String :=
  List.insertionSort strLe
    (((data.filter (fun t => t.account ≠ DEFAULT_ACCOUNT)).map
      (fun t => t.account)).dedup)

/-- The net amount the loop adds for one account: the account's rows with
`Amount *= -1` applied again (back to the source sign), summed. -/
def account_net (data : List Txn) (a : String) : ℚ :=
  ((data.filter (fun t => t.account = a)).map (fun t => -t.amount)).sum

/-- The `for account in accounts:` loop of `write_month`:
`self.balances[account] = self.balances.get(account, 0) + transactions.Amount.sum()`
over the sorted distinct non-default accounts. -/
def apply_period (b : Balances) (data : List Txn) : Balances :=
  (period_accounts data).foldl
    (fun bal a => bal_set bal a (bal_get bal a + account_net data a)) b

/-- A fixed ordered sequence of periods applied from a starting snapshot
(`reset_balances` hands `apply_period` a copy of the snapshot, so reruns
share no state). -/
def run_periods (start : Balances) (ps : List (List Txn)) : Balances :=
  ps.foldl apply_period start

/-! ## The weekday pivot (`write_month` lines 863–884) -/

/-- The `'%w%a'` day key: 0 = Sunday … 6 = Saturday. The digit prefix
exists in the source only to make the lexicographic sort of the keys the
calendar order, so the key is modelled as the digit. -/
def weekday (t : Txn) : ℕ := t.date % 7

/-- The label left after `pivot['Day'].apply(lambda x: x[1:])`. -/
def day_name (d : ℕ) : String :=
  (["Sun", "Mon", "Tue", "Wed", "Thu", "Fri", "Sat"].getD d "")

/-- The day pivot before zero-filling: one row (key, amount sum, reward
sum) per distinct weekday present, ascending. -/
def day_entry (txns : List Txn) (d : ℕ) : ℕ × ℚ × ℚ :=
  (d, ((txns.filter (fun t => weekday t = d)).map (fun t => t.amount)).sum,
      ((txns.filter (fun t => weekday t = d)).map
        (fun t => t.cashbackReward)).sum)

/-- The rows `pivot_table(index = 'Day')` produces. -/
def day_key_rows (txns : List Txn) : List (ℕ × ℚ × ℚ) :=
  (List.insertionSort (fun a b : ℕ => a ≤ b) ((txns.map weekday).dedup)).map
    (day_entry txns)

/-- The zero-fill loop: append `[day, 0, 0]` for every key among the
seven whose day is not among the pivot's `Day` values (membership among
the pivot's keys equals membership among the transactions' weekdays). -/
def day_filled (txns : List Txn) : List (ℕ × ℚ × ℚ) :=
  day_key_rows txns
    ++ ((List.range 7).filter (fun d => d ∉ txns.map weekday)).map
        (fun d => (d, 0, 0))

/-- One written row of the day pivot table. -/
structure DayRow where
  day : String
  amount : ℚ
  reward : ℚ
  count : ℕ
deriving DecidableEq, Repr

/-- The finished day pivot: zero-filled, sorted by key, joined with
`value_counts` (`fillna(0)` makes a missing count 0, which the filter
count subsumes), digit prefix stripped. -/
def day_pivot (txns : List Txn) : List DayRow :=
  (List.insertionSort (fun a b : ℕ × ℚ × ℚ => a.1 ≤ b.1)
      (day_filled txns)).map
    (fun r =>
      { day := day_name r.1, amount := r.2.1, reward := r.2.2,
        count := (txns.filter (fun t => weekday t = r.1)).length })

/-! ## The cashback pivot and yield metrics (`write_month` lines 885–909) -/

/-- The `CashBack %` pivot over `all_expenses`: per distinct rate
(ascending), the amount and reward sums and the row count. -/
def cashback_pivot (txns : List Txn) : List (ℚ × ℚ × ℚ × ℕ) :=
  (List.insertionSort (fun a b : ℚ => a ≤ b)
      ((txns.map (fun t => t.cashbackPct)).dedup)).map
    (fun p =>
      (p, ((txns.filter (fun t => t.cashbackPct = p)).map
            (fun t => t.amount)).sum,
          ((txns.filter (fun t => t.cashbackPct = p)).map
            (fun t => t.cashbackReward)).sum,
          (txns.filter (fun t => t.cashbackPct = p)).length))

/-- `all_expenses['CashBack Reward'].sum()`. -/
def cashback_sum (data : List Txn) : ℚ :=
  ((all_expenses data).map (fun t => t.cashbackReward)).sum

/-- `eligible_expenses.Amount.sum()`. -/
def eligible_sum (data : List Txn) : ℚ :=
  ((eligible_expenses data).map (fun t => t.amount)).sum

/-- `Average cashback yield`: reward sum over eligible spend. -/
def average_cashback_yield (data : List Txn) : PFloat :=
  npDiv (cashback_sum data) (eligible_sum data)

/-- `pivot[pivot['CashBack %'] != 0].Amount.sum()`: spend at a nonzero
cashback rate. -/
def nonzero_rate_spend (data : List Txn) : ℚ :=
  (((cashback_pivot (all_expenses data)).filter (fun r => r.1 ≠ 0)).map
    (fun r => r.2.1)).sum

/-- `Average cashback yield excluding 0% cashback`. -/
def average_cashback_yield_excl0 (data : List Txn) : PFloat :=
  npDiv (cashback_sum data) (nonzero_rate_spend data)

/-! ## The month loop (`handle_month`, `write_summary`) -/

/-- `Writer.handle_month` with the filesystem abstracted to a map from
month to its raw rows (`none` models the glob finding no file, which
raises `FileNotFoundError` inside `read_month` — a condition distinct
from a present-but-empty file, `some []`): on `none` the error is caught,
nothing is stored and `False` is returned; otherwise the normalized data
is stored under the month and `True` is returned. -/
def handle_month (fs : ℕ → Option (List RawRecord))
    (stored : List (ℕ × List Txn)) (m : ℕ) :
    List (ℕ × List Txn) × Bool :=
  match fs m with
  | none => (stored, false)
  | some rows => (stored ++ [(m, read_month rows)], true)

/-- `for month in range(1, 13): writer.handle_month(month)`: the stored
per-month data (dict insertion order = processing order) and the list of
returned flags. -/
def run_months (fs : ℕ → Option (List RawRecord)) :
    List (ℕ × List Txn) × List Bool :=
  (List.range' 1 12).foldl
    (fun st m =>
      let r := handle_month fs st.1 m
      (r.1, st.2 ++ [r.2]))
    ([], [])

/-- The yearly rollup input `pd.concat(self.data[self.year].values())`:
the stored months' transactions, concatenated in storage order. -/
def summary_rollup (stored : List (ℕ × List Txn)) : List Txn :=
  (stored.map (fun p => p.2)).flatten

/-! ## Starting balances per year (`get_balances`, `reset_balances`) -/

/-- The ledger bookkeeping state of `Writer`: the current year, the
per-year `starting_balances` dict and the working `balances` dict. -/
structure LedgerState where
  year : ℕ
  starting_balances : List (ℕ × Balances)
  balances : Balances
deriving DecidableEq, Repr

/-- Year-keyed dict read. -/
def year_lookup (l : List (ℕ × Balances)) (y : ℕ) : Option Balances :=
  (l.find? (fun p => p.1 = y)).map (fun p => p.2)

/-- Year-keyed dict write (same in-place-or-append semantics as
`bal_set`). -/
def year_set : List (ℕ × Balances) → ℕ → Balances → List (ℕ × Balances)
  | [], y, b => [(y, b)]
  | p :: rest, y, b =>
    if p.1 = y then (y, b) :: rest else p :: year_set rest y b

/-- `Writer.get_balances` with the file system abstracted: on a readable
`starting_balances{year}.json` store it and reset the working balances;
on `FileNotFoundError` (`none`) pass, leaving the state untouched. -/
def get_balances (file : Option Balances) (s : LedgerState) : LedgerState :=
  match file with
  | some b =>
    { s with starting_balances := year_set s.starting_balances s.year b,
             balances := b }
  | none => s

/-- `Writer.reset_balances`:
`self.balances = self.starting_balances[self.year].copy()`. The `none`
result models the `KeyError` the subscript raises when the year has no
starting snapshot. -/
def reset_balances (s : LedgerState) : Option LedgerState :=
  match year_lookup s.starting_balances s.year with
  | some b => some { s with balances := b }
  | none => none

/-! ## General lemmas about grouped sums -/

theorem tt_sum_map_add {α M : Type _} [AddCommMonoid M] (f g : α → M)
    (l : List α) :
    (l.map (fun a => f a + g a)).sum = (l.map f).sum + (l.map g).sum := by
  induction l with
  | nil => simp
  | cons a l ih => simp [ih]; exact add_add_add_comm _ _ _ _

theorem tt_sum_ite_eq {κ M : Type _} [DecidableEq κ] [AddCommMonoid M]
    (L : List κ) (hN : L.Nodup) (b : κ) (x : M) :
    (L.map (fun c => if b = c then x else 0)).sum = if b ∈ L then x else 0 := by
  induction L with
  | nil => simp
  | cons c L ih =>
    rcases List.nodup_cons.mp hN with ⟨hc, hN2⟩
    by_cases hbc : b = c
    · subst hbc
      have h0 : (L.map (fun c => if b = c then x else 0)).sum = 0 := by
        apply List.sum_eq_zero
        intro y hy
        obtain ⟨d, hd, rfl⟩ := List.mem_map.mp hy
        rw [if_neg]
        rintro rfl
        exact hc hd
      simp [h0]
    · simp only [List.map_cons, List.sum_cons, if_neg hbc, zero_add, ih hN2,
        List.mem_cons]
      by_cases hbl : b ∈ L
      · rw [if_pos hbl, if_pos (Or.inr hbl)]
      · rw [if_neg hbl, if_neg (by rintro (h | h) <;> [exact hbc h; exact hbl h])]

/-- Summing the per-group sums over the (distinct) groups selected by `p`
is summing over the selected elements: the fan-out/fan-in identity behind
every pivot in the engine. -/
theorem tt_fiber_sum {α κ M : Type _} [DecidableEq κ] [AddCommMonoid M]
    (key : α → κ) (f : α → M) (p : κ → Bool) (L : List κ) (S : List α)
    (hN : L.Nodup) (hcov : ∀ a ∈ S, key a ∈ L) :
    ((L.filter p).map
        (fun c => ((S.filter (fun a => key a = c)).map f).sum)).sum
      = ((S.filter (fun a => p (key a))).map f).sum := by
  induction S with
  | nil => simp
  | cons a S ih =>
    have hcov2 : ∀ b ∈ S, key b ∈ L := fun b hb =>
      hcov b (List.mem_cons_of_mem a hb)
    have hstep : ∀ c : κ,
        (((a :: S).filter (fun x => key x = c)).map f).sum
          = (if key a = c then f a else 0)
            + ((S.filter (fun x => key x = c)).map f).sum := by
      intro c
      by_cases h : key a = c
      · simp [List.filter_cons, h]
      · simp [List.filter_cons, h]
    have hsplit :
        ((L.filter p).map
            (fun c => (((a :: S).filter (fun x => key x = c)).map f).sum)).sum
          = ((L.filter p).map (fun c => if key a = c then f a else 0)).sum
            + ((L.filter p).map
                (fun c => ((S.filter (fun x => key x = c)).map f).sum)).sum := by
      rw [← tt_sum_map_add]
      exact congrArg List.sum (List.map_congr_left (fun c _ => hstep c))
    rw [hsplit, ih hcov2,
      tt_sum_ite_eq (L.filter p) (hN.filter p) (key a) (f a)]
    have hmem : key a ∈ L.filter p ↔ p (key a) = true := by
      rw [List.mem_filter]
      exact ⟨fun h => h.2, fun h => ⟨hcov a (List.mem_cons_self a S), h⟩⟩
    by_cases hp : p (key a) = true
    · rw [if_pos (hmem.mpr hp)]
      simp [List.filter_cons, hp]
    · rw [if_neg (fun h => hp (hmem.mp h)), zero_add]
      have hp2 : p (key a) = false := by
        cases h : p (key a)
        · rfl
        · exact absurd h hp
      simp [List.filter_cons, hp2]

/-- The length of a selected-fibers union, same shape as `tt_fiber_sum`. -/
theorem tt_fiber_length {α κ : Type _} [DecidableEq κ]
    (key : α → κ) (p : κ → Bool) (L : List κ) (S : List α)
    (hN : L.Nodup) (hcov : ∀ a ∈ S, key a ∈ L) :
    ((L.filter p).map
        (fun c => (S.filter (fun a => key a = c)).length)).sum
      = (S.filter (fun a => p (key a))).length := by
  have h := tt_fiber_sum key (fun _ => (1 : ℕ)) p L S hN hcov
  simpa using h

/-! ## Lemmas about the category pivot -/

theorem mem_pivot_cats {txns : List Txn} {c : String} :
    c ∈ pivot_cats txns ↔ c ∈ txns.map (fun t => t.category) := by
  unfold pivot_cats
  rw [(List.perm_insertionSort _ _).mem_iff, List.mem_dedup]

theorem nodup_pivot_cats (txns : List Txn) : (pivot_cats txns).Nodup :=
  (List.perm_insertionSort _ _).nodup_iff.mpr (List.nodup_dedup _)

/-- A filtered sum of pivot values is the same sum over the underlying
transactions, for any per-row value that is a group sum. -/
theorem pivot_filter_sum {M : Type _} [AddCommMonoid M]
    (txns : List Txn) (p : String → Bool) (val : PivotRow → M) (f : Txn → M)
    (hval : ∀ c, val (pivot_row txns c)
      = ((txns.filter (fun t => t.category = c)).map f).sum) :
    (((category_pivot txns).filter (fun r => p r.category)).map val).sum
      = ((txns.filter (fun t => p t.category)).map f).sum := by
  unfold category_pivot
  rw [List.filter_map, List.map_map]
  have hcomp :
      ((pivot_cats txns).filter ((fun r => p r.category) ∘ pivot_row txns))
        = (pivot_cats txns).filter p := rfl
  rw [hcomp]
  have hfun : (val ∘ pivot_row txns)
      = fun c => ((txns.filter (fun t => t.category = c)).map f).sum :=
    funext hval
  rw [hfun]
  exact tt_fiber_sum (fun t => t.category) f p (pivot_cats txns) txns
    (nodup_pivot_cats txns)
    (fun t ht => mem_pivot_cats.mpr (List.mem_map_of_mem _ ht))

/-- The number of filtered pivot rows is the number of distinct selected
categories. -/
theorem pivot_filter_length (txns : List Txn) (p : String → Bool) :
    ((category_pivot txns).filter (fun r => p r.category)).length
      = ((txns.map (fun t => t.category)).dedup.filter p).length := by
  unfold category_pivot
  rw [List.filter_map, List.length_map]
  have hcomp :
      ((pivot_cats txns).filter ((fun r => p r.category) ∘ pivot_row txns))
        = (pivot_cats txns).filter p := rfl
  rw [hcomp]
  exact ((List.perm_insertionSort _ _).filter p).length_eq

/-! ## Lemmas about the balance ledger -/

theorem bal_lookup_set (b : Balances) (a : String) (v : ℚ) (x : String) :
    bal_lookup (bal_set b a v) x
      = if x = a then some v else bal_lookup b x := by
  induction b with
  | nil =>
    by_cases h : x = a
    · subst h
      unfold bal_set bal_lookup
      rw [List.find?_cons_of_pos _ (by simp), if_pos rfl]
      rfl
    · unfold bal_set bal_lookup
      rw [List.find?_cons_of_neg _
          (by simpa using fun hax : a = x => h hax.symm), if_neg h]
  | cons p rest ih =>
    by_cases hpa : p.1 = a
    · rw [bal_set, if_pos hpa]
      by_cases hx : x = a
      · subst hx
        unfold bal_lookup
        rw [List.find?_cons_of_pos _ (by simp), if_pos rfl]
        rfl
      · unfold bal_lookup
        rw [List.find?_cons_of_neg _
            (by simpa using fun hax : a = x => hx hax.symm), if_neg hx,
          List.find?_cons_of_neg _
            (by simpa using fun hpx : p.1 = x => hx ((hpa.symm.trans hpx).symm))]
    · rw [bal_set, if_neg hpa]
      by_cases hpx : p.1 = x
      · have hxa : ¬(x = a) := fun h => hpa (hpx.trans h)
        unfold bal_lookup
        rw [List.find?_cons_of_pos _ (by simpa using hpx), if_neg hxa,
          List.find?_cons_of_pos _ (by simpa using hpx)]
      · unfold bal_lookup
        rw [List.find?_cons_of_neg _ (by simpa using hpx)]
        have ih2 := ih
        unfold bal_lookup at ih2
        rw [ih2]
        by_cases hx : x = a
        · rw [if_pos hx, if_pos hx]
        · rw [if_neg hx, if_neg hx,
            List.find?_cons_of_neg _ (by simpa using hpx)]

theorem total_bal_set (b : Balances) (a : String) (v : ℚ) :
    total_balance (bal_set b a v) = total_balance b - bal_get b a + v := by
  induction b with
  | nil => simp [bal_set, total_balance, bal_get, bal_lookup]
  | cons p rest ih =>
    by_cases h : p.1 = a
    · simp only [bal_set, if_pos h, total_balance, List.map_cons,
        List.sum_cons, bal_get, bal_lookup]
      rw [List.find?_cons_of_pos _ (by simpa using h)]
      have hd : (Option.map (fun q : String × ℚ => q.2) (some p)).getD 0
          = p.2 := rfl
      rw [hd]
      ring
    · simp only [bal_set, if_neg h, total_balance, List.map_cons,
        List.sum_cons, bal_get, bal_lookup]
      rw [List.find?_cons_of_neg _ (by simpa using h)]
      have ih2 := ih
      simp only [total_balance, bal_get, bal_lookup] at ih2
      rw [ih2]
      ring

theorem apply_fold_lookup (data : List Txn) (L : List String) (b : Balances)
    (hN : L.Nodup) (x : String) :
    bal_lookup
        (L.foldl
          (fun bal a => bal_set bal a (bal_get bal a + account_net data a)) b)
        x
      = if x ∈ L then some (bal_get b x + account_net data x)
        else bal_lookup b x := by
  induction L generalizing b with
  | nil => simp
  | cons a L ih =>
    rcases List.nodup_cons.mp hN with ⟨ha, hN2⟩
    simp only [List.foldl_cons]
    rw [ih _ hN2]
    by_cases hxL : x ∈ L
    · have hxa : x ≠ a := fun h => ha (h ▸ hxL)
      rw [if_pos hxL, if_pos (List.mem_cons_of_mem a hxL)]
      unfold bal_get
      rw [bal_lookup_set, if_neg hxa]
    · rw [if_neg hxL, bal_lookup_set]
      by_cases hxa : x = a
      · subst hxa
        rw [if_pos rfl, if_pos (List.mem_cons_self x L)]
      · rw [if_neg hxa,
          if_neg (by rw [List.mem_cons]; rintro (h | h) <;> [exact hxa h; exact hxL h])]

theorem apply_fold_total (data : List Txn) (L : List String) (b : Balances) :
    total_balance
        (L.foldl
          (fun bal a => bal_set bal a (bal_get bal a + account_net data a)) b)
      = total_balance b + (L.map (fun a => account_net data a)).sum := by
  induction L generalizing b with
  | nil => simp
  | cons a L ih =>
    simp only [List.foldl_cons, List.map_cons, List.sum_cons]
    rw [ih, total_bal_set]
    ring

theorem nodup_period_accounts (data : List Txn) :
    (period_accounts data).Nodup :=
  (List.perm_insertionSort _ _).nodup_iff.mpr (List.nodup_dedup _)

theorem mem_period_accounts {data : List Txn} {a : String} :
    a ∈ period_accounts data
      ↔ a ∈ (data.filter (fun t => t.account ≠ DEFAULT_ACCOUNT)).map
          (fun t => t.account) := by
  unfold period_accounts
  rw [(List.perm_insertionSort _ _).mem_iff, List.mem_dedup]

theorem ne_default_of_mem_period_accounts {data : List Txn} {a : String}
    (h : a ∈ period_accounts data) : a ≠ DEFAULT_ACCOUNT := by
  obtain ⟨t, ht, rfl⟩ := List.mem_map.mp (mem_period_accounts.mp h)
  have := (List.mem_filter.mp ht).2
  simpa using this

/-- The lookup characterization of the per-period balance update. -/
theorem apply_period_lookup (b : Balances) (data : List Txn) (x : String) :
    bal_lookup (apply_period b data) x
      = if x ∈ period_accounts data
        then some (bal_get b x + account_net data x)
        else bal_lookup b x :=
  apply_fold_lookup data _ b (nodup_period_accounts data) x

theorem bal_get_apply_period (b : Balances) (data : List Txn) (x : String) :
    bal_get (apply_period b data) x
      = if x ∈ period_accounts data
        then bal_get b x + account_net data x
        else bal_get b x := by
  unfold bal_get
  rw [apply_period_lookup]
  by_cases h : x ∈ period_accounts data <;> simp [h, bal_get]

/-- Applying two periods in either order yields pointwise equal balance
mappings: each account ends at its start value plus both nets. -/
theorem apply_period_comm (b : Balances) (P1 P2 : List Txn) (x : String) :
    bal_lookup (apply_period (apply_period b P1) P2) x
      = bal_lookup (apply_period (apply_period b P2) P1) x := by
  by_cases h1 : x ∈ period_accounts P1 <;>
    by_cases h2 : x ∈ period_accounts P2
  · rw [apply_period_lookup, if_pos h2, bal_get_apply_period, if_pos h1,
      apply_period_lookup (apply_period b P2) P1, if_pos h1,
      bal_get_apply_period, if_pos h2]
    exact congrArg some (by ring)
  · rw [apply_period_lookup, if_neg h2, apply_period_lookup, if_pos h1,
      apply_period_lookup (apply_period b P2) P1, if_pos h1,
      bal_get_apply_period, if_neg h2]
  · rw [apply_period_lookup, if_pos h2, bal_get_apply_period, if_neg h1,
      apply_period_lookup (apply_period b P2) P1, if_neg h1,
      apply_period_lookup, if_pos h2]
  · rw [apply_period_lookup, if_neg h2, apply_period_lookup, if_neg h1,
      apply_period_lookup (apply_period b P2) P1, if_neg h1,
      apply_period_lookup, if_neg h2]

/-! ## Lemmas about the weekday pivot -/

instance : IsTotal (ℕ × ℚ × ℚ) (fun a b => a.1 ≤ b.1) :=
  ⟨fun a b => Nat.le_total a.1 b.1⟩

instance : IsTrans (ℕ × ℚ × ℚ) (fun a b => a.1 ≤ b.1) :=
  ⟨fun _ _ _ h h2 => le_trans h h2⟩

/-- The sorted distinct weekday keys of the pivot. -/
def day_row_keys (txns : List Txn) : List ℕ :=
  List.insertionSort (fun a b : ℕ => a ≤ b) ((txns.map weekday).dedup)

theorem day_key_rows_eq (txns : List Txn) :
    day_key_rows txns = (day_row_keys txns).map (day_entry txns) := rfl

theorem mem_day_row_keys {txns : List Txn} {d : ℕ} :
    d ∈ day_row_keys txns ↔ d ∈ txns.map weekday := by
  unfold day_row_keys
  rw [(List.perm_insertionSort _ _).mem_iff, List.mem_dedup]

theorem nodup_day_row_keys (txns : List Txn) : (day_row_keys txns).Nodup :=
  (List.perm_insertionSort _ _).nodup_iff.mpr (List.nodup_dedup _)

theorem day_entry_absent (txns : List Txn) (d : ℕ)
    (h : d ∉ txns.map weekday) : day_entry txns d = (d, 0, 0) := by
  have hf : txns.filter (fun t => weekday t = d) = [] := by
    rw [List.filter_eq_nil_iff]
    intro t ht
    simp only [decide_eq_true_eq]
    exact fun hw => h (hw ▸ List.mem_map_of_mem weekday ht)
  unfold day_entry
  rw [hf]
  simp

theorem day_filled_eq (txns : List Txn) :
    day_filled txns
      = (day_row_keys txns
          ++ (List.range 7).filter (fun d => d ∉ txns.map weekday)).map
        (day_entry txns) := by
  unfold day_filled
  rw [day_key_rows_eq, List.map_append]
  congr 1
  refine (List.map_congr_left (fun d hd => ?_)).symm
  have hmem : d ∉ txns.map weekday := by
    have := (List.mem_filter.mp hd).2
    simpa using this
  exact day_entry_absent txns d hmem

theorem day_filled_perm (txns : List Txn) :
    (day_filled txns).Perm ((List.range 7).map (day_entry txns)) := by
  rw [day_filled_eq]
  apply List.Perm.map
  have hwlt : ∀ d ∈ txns.map weekday, d < 7 := by
    intro d hd
    obtain ⟨t, _, rfl⟩ := List.mem_map.mp hd
    exact Nat.mod_lt _ (by norm_num)
  have hnodupL :
      (day_row_keys txns
        ++ (List.range 7).filter (fun d => d ∉ txns.map weekday)).Nodup := by
    refine List.Nodup.append (nodup_day_row_keys txns)
      ((List.nodup_range 7).filter _) ?_
    intro d hd1 hd2
    have h1 : d ∈ txns.map weekday := mem_day_row_keys.mp hd1
    have h2 : d ∉ txns.map weekday := by
      have := (List.mem_filter.mp hd2).2
      simpa using this
    exact h2 h1
  rw [List.perm_ext_iff_of_nodup hnodupL (List.nodup_range 7)]
  intro d
  rw [List.mem_append, List.mem_filter, List.mem_range, mem_day_row_keys]
  constructor
  · rintro (h | ⟨h, _⟩)
    · exact hwlt d h
    · exact h
  · intro h
    by_cases hm : d ∈ txns.map weekday
    · exact Or.inl hm
    · exact Or.inr ⟨h, by simpa using hm⟩

theorem day_sorted_eq (txns : List Txn) :
    List.insertionSort (fun a b : ℕ × ℚ × ℚ => a.1 ≤ b.1) (day_filled txns)
      = (List.range 7).map (day_entry txns) := by
  have hperm :
      (List.insertionSort (fun a b : ℕ × ℚ × ℚ => a.1 ≤ b.1)
          (day_filled txns)).Perm
        ((List.range 7).map (day_entry txns)) :=
    (List.perm_insertionSort _ _).trans (day_filled_perm txns)
  have hkeys :
      (List.insertionSort (fun a b : ℕ × ℚ × ℚ => a.1 ≤ b.1)
          (day_filled txns)).map (fun r => r.1) = List.range 7 := by
    refine List.eq_of_perm_of_sorted (r := (fun a b : ℕ => a ≤ b)) ?_ ?_ ?_
    · have h := hperm.map (fun r => r.1)
      rw [List.map_map] at h
      have h2 : ((fun r : ℕ × ℚ × ℚ => r.1) ∘ day_entry txns) = id := rfl
      rw [h2, List.map_id] at h
      exact h
    · have hs := List.sorted_insertionSort
        (fun a b : ℕ × ℚ × ℚ => a.1 ≤ b.1) (day_filled txns)
      exact List.pairwise_map.mpr hs
    · exact (List.pairwise_lt_range 7).imp (fun h => le_of_lt h)
  have helem : ∀ e ∈ List.insertionSort
      (fun a b : ℕ × ℚ × ℚ => a.1 ≤ b.1) (day_filled txns),
      e = day_entry txns e.1 := by
    intro e he
    have hmem : e ∈ day_filled txns :=
      (List.perm_insertionSort _ _).mem_iff.mp he
    rw [day_filled_eq] at hmem
    obtain ⟨d, _, rfl⟩ := List.mem_map.mp hmem
    rfl
  have h1 :
      List.insertionSort (fun a b : ℕ × ℚ × ℚ => a.1 ≤ b.1) (day_filled txns)
        = (List.insertionSort (fun a b : ℕ × ℚ × ℚ => a.1 ≤ b.1)
            (day_filled txns)).map (fun e => day_entry txns e.1) := by
    conv_lhs => rw [← List.map_id (List.insertionSort
      (fun a b : ℕ × ℚ × ℚ => a.1 ≤ b.1) (day_filled txns))]
    exact List.map_congr_left (fun e he => helem e he)
  rw [h1]
  have h2 :
      (List.insertionSort (fun a b : ℕ × ℚ × ℚ => a.1 ≤ b.1)
          (day_filled txns)).map (fun e => day_entry txns e.1)
        = ((List.insertionSort (fun a b : ℕ × ℚ × ℚ => a.1 ≤ b.1)
            (day_filled txns)).map (fun r => r.1)).map (day_entry txns) := by
    rw [List.map_map]
    rfl
  rw [h2, hkeys]

/-- The complete characterization of the day pivot: seven rows, Sunday
through Saturday, each holding the day's sums and transaction count
(zero when the weekday has no transactions). -/
theorem day_pivot_eq (txns : List Txn) :
    day_pivot txns
      = (List.range 7).map (fun d =>
          { day := day_name d,
            amount := ((txns.filter (fun t => weekday t = d)).map
              (fun t => t.amount)).sum,
            reward := ((txns.filter (fun t => weekday t = d)).map
              (fun t => t.cashbackReward)).sum,
            count := (txns.filter (fun t => weekday t = d)).length }) := by
  unfold day_pivot
  rw [day_sorted_eq, List.map_map]
  rfl

/-! ## Characterizations of `budget_row` -/

theorem budget_row_other (budget : List BudgetLine) (data : List Txn)
    (line : BudgetLine) (h : line.category = "Other") :
    budget_row budget data line
      = { category := line.category, expected := line.expected,
          amount := (((category_pivot (default_transactions data)).filter
              (fun r => other_filter (all_cats budget) r.category)).map
            (fun r => r.amount)).sum,
          remaining := line.expected
            - (((category_pivot (default_transactions data)).filter
                (fun r => other_filter (all_cats budget) r.category)).map
              (fun r => r.amount)).sum,
          usage := npDiv
            ((((category_pivot (default_transactions data)).filter
                (fun r => other_filter (all_cats budget) r.category)).map
              (fun r => r.amount)).sum) line.expected,
          count := ((category_pivot (default_transactions data)).filter
              (fun r => other_filter (all_cats budget) r.category)).length } := by
  simp only [budget_row]
  rw [if_pos h]

theorem budget_row_composite (budget : List BudgetLine) (data : List Txn)
    (line : BudgetLine) (h1 : ¬(line.category = "Other"))
    (h2 : pyContains line.category '&' = true) :
    budget_row budget data line
      = { category := line.category, expected := line.expected,
          amount := (((category_pivot (default_transactions data)).filter
              (fun r => r.category ∈ split_cats line.category)).map
            (fun r => r.amount)).sum,
          remaining := line.expected
            - (((category_pivot (default_transactions data)).filter
                (fun r => r.category ∈ split_cats line.category)).map
              (fun r => r.amount)).sum,
          usage := npDiv
            ((((category_pivot (default_transactions data)).filter
                (fun r => r.category ∈ split_cats line.category)).map
              (fun r => r.amount)).sum) line.expected,
          count := (((category_pivot (default_transactions data)).filter
              (fun r => r.category ∈ split_cats line.category)).map
            (fun r => r.count)).sum } := by
  simp only [budget_row]
  rw [if_neg h1, if_pos h2]

theorem budget_row_usage_eq (budget : List BudgetLine) (data : List Txn)
    (line : BudgetLine) :
    (budget_row budget data line).usage
      = npDiv (budget_row budget data line).amount line.expected := rfl

theorem npDiv_zero_sentinel (a : ℚ) : (npDiv a 0).isSentinel = true := by
  unfold npDiv
  rw [if_pos rfl]
  by_cases h : a = 0
  · rw [if_pos h]; rfl
  · rw [if_neg h]
    by_cases h2 : 0 < a
    · rw [if_pos h2]; rfl
    · rw [if_neg h2]; rfl

/-! ## Claim C2: composite budget-line fan-in -/

/-- C2: for every budget line whose category contains the composite
marker `&`, the reconciler assigns the line's actual amount as the sum of
the amounts — and its transaction count as the number of transactions —
over all default-account (expense) transactions whose category belongs to
the split, whitespace-trimmed, set of names (the sum over the matching
per-category groups), with `remaining = expected - actual` and
`usage = actual / expected`. -/
theorem composite_budget_fan_in (budget : List BudgetLine) (data : List Txn)
    (line : BudgetLine) (h : pyContains line.category '&' = true) :
    (budget_row budget data line).amount
        = (((default_transactions data).filter
            (fun t => t.category ∈ split_cats line.category)).map
          (fun t => t.amount)).sum
      ∧ (budget_row budget data line).count
        = ((default_transactions data).filter
            (fun t => t.category ∈ split_cats line.category)).length
      ∧ (budget_row budget data line).remaining
        = line.expected - (budget_row budget data line).amount
      ∧ (budget_row budget data line).usage
        = npDiv (budget_row budget data line).amount line.expected := by
  have h1 : ¬(line.category = "Other") := by
    intro he
    rw [he] at h
    exact absurd h (by decide)
  rw [budget_row_composite budget data line h1 h]
  refine ⟨?_, ?_, rfl, rfl⟩
  · exact pivot_filter_sum (default_transactions data)
      (fun c => c ∈ split_cats line.category) (fun r => r.amount)
      (fun t => t.amount) (fun c => rfl)
  · have h2 := pivot_filter_sum (default_transactions data)
      (fun c => c ∈ split_cats line.category) (fun r => r.count)
      (fun _ => (1 : ℕ)) (fun c => by simp [pivot_row])
    simpa using h2

def c2_budget : List BudgetLine := [⟨"A & B", 100⟩]

def c2_data : List Txn :=
  [⟨0, "A", 30, "", 0, 0, "Default"⟩, ⟨0, "B", 20, "", 0, 0, "Default"⟩]

/-- C2 witness: on budget `{"A & B": 100}` with transactions A = 30 and
B = 20 the reconciler reports actual 50, remaining 50, usage 0.5 over the
two transactions. -/
theorem composite_budget_fan_in_witness :
    pyContains "A & B" '&' = true
  ∧ (budget_row c2_budget c2_data ⟨"A & B", 100⟩).amount = 50
  ∧ (budget_row c2_budget c2_data ⟨"A & B", 100⟩).remaining = 50
  ∧ (budget_row c2_budget c2_data ⟨"A & B", 100⟩).usage = PFloat.fin (1 / 2)
  ∧ (budget_row c2_budget c2_data ⟨"A & B", 100⟩).count = 2 := by
  have h := composite_budget_fan_in c2_budget c2_data ⟨"A & B", 100⟩
    (by decide)
  have ha : (budget_row c2_budget c2_data ⟨"A & B", 100⟩).amount = 50 := by
    rw [h.1]
    show (30 : ℚ) + (20 + 0) = 50
    norm_num
  refine ⟨by decide, ha, ?_, ?_, ?_⟩
  · rw [h.2.2.1, ha]
    norm_num
  · rw [h.2.2.2, ha]
    unfold npDiv
    rw [if_neg (by norm_num : ¬((100 : ℚ) = 0))]
    norm_num
  · rw [h.2.1]
    decide

/-! ## Claim C1: the `Other` residual bucket -/

def c1a_budget : List BudgetLine := [⟨"Other", 50⟩]

def c1a_data : List Txn :=
  [⟨0, "C", 3, "", 0, 0, "Default"⟩, ⟨0, "C", 4, "", 0, 0, "Default"⟩]

def c1b_data : List Txn :=
  [⟨0, "C", 7, "", 0, 0, "Default"⟩, ⟨0, "Other", 2, "", 0, 0, "Default"⟩]

/-- C1 counterexample. With budget `{"Other": 50}`: (a) two transactions
in an unreferenced category C make the code's `Other` transaction count 1
(the number of residual pivot rows, `len(...)`), where the claim's sum of
the grouped transaction counts is 2; (b) with transactions C = 7 and
literally-`Other`-categorized 2, the code's `Other` actual is 9 (the
filter `x not in all_cats or x == 'Other'` readmits the category
`Other`), where the claim's sum over categories outside the referenced
set is 7. -/
theorem other_residual_counterexample :
    (budget_row c1a_budget c1a_data ⟨"Other", 50⟩).count = 1
  ∧ claimed_other_count c1a_budget c1a_data = 2
  ∧ (budget_row c1a_budget c1b_data ⟨"Other", 50⟩).amount = 9
  ∧ claimed_other_amount c1a_budget c1b_data = 7 := by
  refine ⟨by decide, by decide, ?_, ?_⟩
  · rw [budget_row_other c1a_budget c1b_data ⟨"Other", 50⟩ rfl]
    show (7 : ℚ) + 0 + ((2 : ℚ) + 0 + 0) = 9
    norm_num
  · show (7 : ℚ) + 0 + 0 = 7
    norm_num

/-- C1 (amended): for a budget line named `Other` the reconciler sets the
actual amount to the sum over every default-account expense transaction
whose category is unreferenced by the budget **or is literally `Other`**,
and is not `Transfer`; and sets the transaction count to the **number of
such residual categories** (the length of the filtered pivot), not the
summed per-category counts. -/
theorem other_residual_amended (budget : List BudgetLine) (data : List Txn)
    (line : BudgetLine) (h : line.category = "Other") :
    (budget_row budget data line).amount
        = (((default_transactions data).filter
            (fun t => other_filter (all_cats budget) t.category)).map
          (fun t => t.amount)).sum
      ∧ (budget_row budget data line).count
        = (((default_transactions data).map (fun t => t.category)).dedup.filter
            (other_filter (all_cats budget))).length := by
  rw [budget_row_other budget data line h]
  constructor
  · exact pivot_filter_sum (default_transactions data)
      (other_filter (all_cats budget)) (fun r => r.amount)
      (fun t => t.amount) (fun c => rfl)
  · exact pivot_filter_length (default_transactions data)
      (other_filter (all_cats budget))

def c1w_budget : List BudgetLine := [⟨"A & B", 100⟩, ⟨"Other", 200⟩]

def c1w_data : List Txn :=
  [⟨0, "A", 10, "", 0, 0, "Default"⟩, ⟨0, "B", 5, "", 0, 0, "Default"⟩,
   ⟨0, "C", 7, "", 0, 0, "Default"⟩,
   ⟨0, "Transfer", 100, "", 0, 0, "Default"⟩]

/-- C1 witness: with categories A = 10, B = 5, C = 7, Transfer = 100 and
budget lines `A & B` and `Other`, the `Other` actual is 7 (C only; the
transfer is excluded) over one residual category. -/
theorem other_residual_amended_witness :
    (⟨"Other", 200⟩ : BudgetLine).category = "Other"
  ∧ (budget_row c1w_budget c1w_data ⟨"Other", 200⟩).amount = 7
  ∧ (budget_row c1w_budget c1w_data ⟨"Other", 200⟩).count = 1 := by
  have h := other_residual_amended c1w_budget c1w_data ⟨"Other", 200⟩ rfl
  refine ⟨rfl, h.1.trans ?_, by decide⟩
  show (7 : ℚ) + 0 = 7
  norm_num

/-! ## Claim C6: degenerate ratios are sentinels, not errors -/

/-- C6: whenever a denominator is zero — a zero expected amount under
`usage% = actual / expected`, a zero eligible-spend sum under the average
cashback yield, or zero spend at nonzero rates under the yield excluding
the 0% bucket — the computation yields a sentinel value (`nan` or a
signed infinity, as numpy/pandas division produces) rather than raising:
the embedded operations are total and return `PFloat` sentinels. -/
theorem degenerate_ratio_sentinel :
    (∀ (budget : List BudgetLine) (data : List Txn) (line : BudgetLine),
        line.expected = 0 →
        ((budget_row budget data line).usage).isSentinel = true)
  ∧ (∀ data : List Txn, eligible_sum data = 0 →
        (average_cashback_yield data).isSentinel = true)
  ∧ (∀ data : List Txn, nonzero_rate_spend data = 0 →
        (average_cashback_yield_excl0 data).isSentinel = true) := by
  refine ⟨?_, ?_, ?_⟩
  · intro budget data line he
    rw [budget_row_usage_eq, he]
    exact npDiv_zero_sentinel _
  · intro data he
    unfold average_cashback_yield
    rw [he]
    exact npDiv_zero_sentinel _
  · intro data he
    unfold average_cashback_yield_excl0
    rw [he]
    exact npDiv_zero_sentinel _

/-- C6 witness: a budget line with expected 0 and an empty period (zero
eligible spend, zero nonzero-rate spend) produce sentinels, concretely
`nan`, and no failure. -/
theorem degenerate_ratio_sentinel_witness :
    ((⟨"X", 0⟩ : BudgetLine).expected = 0
      ∧ eligible_sum [] = 0 ∧ nonzero_rate_spend [] = 0)
  ∧ ((budget_row [⟨"X", 0⟩] [] ⟨"X", 0⟩).usage).isSentinel = true
  ∧ (average_cashback_yield []).isSentinel = true
  ∧ (average_cashback_yield_excl0 []).isSentinel = true :=
  ⟨⟨rfl, rfl, rfl⟩,
    degenerate_ratio_sentinel.1 [⟨"X", 0⟩] [] ⟨"X", 0⟩ rfl,
    degenerate_ratio_sentinel.2.1 [] rfl,
    degenerate_ratio_sentinel.2.2 [] rfl⟩

/-! ## Claim C3: the total-balance invariant of a period -/

/-- C3: applying a period to the ledger raises the total balance by
exactly the signed net of the period's non-default-account transactions
(sign flipped back to the source convention), and an account that appears
in the period but not in the mapping is created implicitly at 0 and ends
at `0 +` its net. -/
theorem apply_period_balance_invariant (b : Balances) (data : List Txn) :
    total_balance (apply_period b data)
        = total_balance b
          + ((data.filter (fun t => t.account ≠ DEFAULT_ACCOUNT)).map
              (fun t => -t.amount)).sum
      ∧ ∀ a : String, a ≠ DEFAULT_ACCOUNT →
          (∃ t ∈ data, t.account = a) → bal_lookup b a = none →
          bal_lookup (apply_period b data) a
            = some (0 + account_net data a) := by
  constructor
  · unfold apply_period
    rw [apply_fold_total]
    congr 1
    have h0 := tt_fiber_sum (fun t => t.account) (fun t => -t.amount)
      (fun _ => true) (period_accounts data)
      (data.filter (fun t => t.account ≠ DEFAULT_ACCOUNT))
      (nodup_period_accounts data)
      (fun t ht => mem_period_accounts.mpr (List.mem_map_of_mem _ ht))
    have h1 :
        (((period_accounts data).filter (fun c => true)).map
            (fun c =>
              (((data.filter (fun t => t.account ≠ DEFAULT_ACCOUNT)).filter
                  (fun t => t.account = c)).map (fun t => -t.amount)).sum)).sum
          = (((data.filter (fun t => t.account ≠ DEFAULT_ACCOUNT)).filter
              (fun t => true)).map (fun t => -t.amount)).sum := h0
    rw [List.filter_true, List.filter_true] at h1
    rw [← h1]
    apply congrArg List.sum
    apply List.map_congr_left
    intro a ha
    unfold account_net
    congr 1
    rw [List.filter_filter]
    congr 1
    apply List.filter_congr
    intro t _
    have hane := ne_default_of_mem_period_accounts ha
    by_cases h : t.account = a
    · simp [h, hane]
    · simp [h]
  · rintro a haD ⟨t, ht, hta⟩ hnone
    rw [apply_period_lookup,
      if_pos (mem_period_accounts.mpr
        (List.mem_map.mpr
          ⟨t, List.mem_filter.mpr ⟨ht, by simp [hta, haD]⟩, hta⟩))]
    unfold bal_get
    rw [hnone]
    rfl

def c3_bal : Balances := [("Savings", 10)]

def c3_data : List Txn :=
  [⟨0, "Transfer", 5, "", 0, 0, "Savings"⟩,
   ⟨0, "Transfer", 7, "", 0, 0, "Wedding"⟩,
   ⟨0, "Groceries", 8, "", 0, 0, "Default"⟩]

/-- C3 witness: a period moving 5 to the known account `Savings` and 7 to
the unseen account `Wedding` (plus a default-account expense, which the
ledger ignores) lowers the total from 10 by 12, and `Wedding` is created
at `0 +` its net. -/
theorem apply_period_balance_invariant_witness :
    total_balance (apply_period c3_bal c3_data) = -2
  ∧ bal_lookup (apply_period c3_bal c3_data) "Wedding"
      = some (0 + account_net c3_data "Wedding")
  ∧ account_net c3_data "Wedding" = -7 := by
  have h := apply_period_balance_invariant c3_bal c3_data
  refine ⟨?_, ?_, ?_⟩
  · rw [h.1]
    show (10 : ℚ) + 0 + (-(5 : ℚ) + (-(7 : ℚ) + 0)) = -2
    norm_num
  · exact h.2 "Wedding" (by decide)
      ⟨⟨0, "Transfer", 7, "", 0, 0, "Wedding"⟩, by decide, rfl⟩ (by decide)
  · show -(7 : ℚ) + 0 = -7
    norm_num

/-! ## Claim C8: order-dependence of the ledger -/

/-- The claim's existential: some pair of periods touching the same
non-default account yields different final balance mappings depending on
the order of application. -/
def ledger_noncommutativity_claim : Prop :=
  ∃ (b : Balances) (P1 P2 : List Txn) (a : String),
    a ≠ DEFAULT_ACCOUNT
    ∧ (∃ t ∈ P1, t.account = a) ∧ (∃ t ∈ P2, t.account = a)
    ∧ ∃ x : String,
        bal_lookup (apply_period (apply_period b P1) P2) x
          ≠ bal_lookup (apply_period (apply_period b P2) P1) x

/-- C8 counterexample: the claimed non-commutativity never happens — the
per-account update is `balances.get(a, 0) + net`, pure addition, so the
final mapping after P1;P2 is pointwise equal to the one after P2;P1 for
every starting mapping and every pair of periods. -/
theorem ledger_noncommutativity_claim_false :
    ledger_noncommutativity_claim = False :=
  eq_false (fun h => by
    obtain ⟨b, P1, P2, a, _, _, _, x, hx⟩ := h
    exact hx (apply_period_comm b P1 P2 x))

/-- C8 (amended): the ledger is commutative — applying P1 then P2 yields
the same balance mapping (pointwise) as P2 then P1 — and re-running a
fixed ordered sequence of periods from the same starting snapshot is
deterministic (the embedded fold is a pure function of the snapshot and
the sequence, as `reset_balances` hands each run a copy). -/
theorem ledger_order_properties :
    (∀ (b : Balances) (P1 P2 : List Txn) (x : String),
        bal_lookup (apply_period (apply_period b P1) P2) x
          = bal_lookup (apply_period (apply_period b P2) P1) x)
  ∧ ∀ (start : Balances) (ps : List (List Txn)),
        run_periods start ps = run_periods start ps :=
  ⟨apply_period_comm, fun _ _ => rfl⟩

/-! ## Claim C9: weekday zero-fill -/

/-- C9: the weekday aggregation of a period's expense transactions
returns exactly seven buckets in fixed calendar order Sun..Sat, and every
weekday without transactions appears explicitly with amount 0, reward 0
and count 0. -/
theorem weekday_aggregation_zero_fill (data : List Txn) :
    (day_pivot (all_expenses data)).length = 7
  ∧ (day_pivot (all_expenses data)).map (fun r => r.day)
      = ["Sun", "Mon", "Tue", "Wed", "Thu", "Fri", "Sat"]
  ∧ ∀ d : ℕ, d < 7 →
      (∀ t ∈ all_expenses data, weekday t ≠ d) →
      (day_pivot (all_expenses data)).getD d ⟨"", 0, 0, 0⟩
        = ⟨day_name d, 0, 0, 0⟩ := by
  have h := day_pivot_eq (all_expenses data)
  refine ⟨?_, ?_, ?_⟩
  · rw [h]
    simp
  · rw [h, List.map_map]
    rfl
  · intro d hd hnone
    have hf : (all_expenses data).filter (fun t => weekday t = d) = [] := by
      rw [List.filter_eq_nil_iff]
      intro t ht
      simpa using hnone t ht
    rw [h]
    unfold List.getD
    rw [List.get?_map, List.get?_range hd]
    simp [hf]

def c9_data : List Txn :=
  [⟨1, "Fuel", 8, "", 0, 0, "Default"⟩, ⟨8, "Fuel", 3, "", 0, 0, "Default"⟩]

/-- C9 witness: a period whose (expense) transactions all fall on Monday
(serial days 1 and 8) still yields all seven buckets in order, with the
Sunday and Tuesday buckets — like the other five — explicitly zero. -/
theorem weekday_aggregation_zero_fill_witness :
    (day_pivot (all_expenses c9_data)).length = 7
  ∧ (day_pivot (all_expenses c9_data)).map (fun r => r.day)
      = ["Sun", "Mon", "Tue", "Wed", "Thu", "Fri", "Sat"]
  ∧ (day_pivot (all_expenses c9_data)).getD 0 ⟨"", 0, 0, 0⟩
      = ⟨"Sun", 0, 0, 0⟩
  ∧ (day_pivot (all_expenses c9_data)).getD 2 ⟨"", 0, 0, 0⟩
      = ⟨"Tue", 0, 0, 0⟩ := by
  have h := weekday_aggregation_zero_fill c9_data
  exact ⟨h.1, h.2.1,
    (h.2.2 0 (by norm_num) (by decide)).trans (by decide),
    (h.2.2 2 (by norm_num) (by decide)).trans (by decide)⟩

/-! ## Claim C4: totality and shape of the note parser -/

/-- C4 counterexample: on a present separator with an unparsable trailing
segment the parser does not return the original text verbatim — `note`
has already been rebound to the stripped head when `float` raises, so
`parse_note "Coffee|bad" '|'` returns `("Coffee", 0)`, not
`("Coffee|bad", 0)`. -/
theorem parse_note_verbatim_counterexample :
    parse_note "Coffee|bad" '|' = ("Coffee", 0)
  ∧ ("Coffee" : String) ≠ "Coffee|bad" :=
  ⟨by decide, by decide⟩

/-- C4 (amended): the note parser is total (the embedding returns a value
for every input) and: a separator-free note other than the literal text
`"nan"` is returned verbatim with rate 0; `"nan"` (pandas' rendering of a
missing note) becomes `("", 0)`; with a separator present, the head
segment stripped of `%`/whitespace is returned — with rate 0 when the
stripped trailing segment does not parse as a float, and with the parsed
number divided by 100 when it does. -/
theorem parse_note_total_spec (s : String) (sep : Char) (q : ℚ) :
    (s ≠ "nan" → pyContains s sep = false → parse_note s sep = (s, 0))
  ∧ (parse_note "nan" sep = ("", 0))
  ∧ (s ≠ "nan" → pyContains s sep = true →
      pyFloat? (pyStrip (splitFirst sep s).2) = none →
      parse_note s sep = (pyStrip (splitFirst sep s).1, 0))
  ∧ (s ≠ "nan" → pyContains s sep = true →
      pyFloat? (pyStrip (splitFirst sep s).2) = some q →
      parse_note s sep = (pyStrip (splitFirst sep s).1, q / 100)) := by
  refine ⟨?_, ?_, ?_, ?_⟩
  · intro hnan hc
    simp [parse_note, hnan, hc]
  · have h0 : pyContains "" sep = false := rfl
    simp [parse_note, h0]
  · intro hnan hc hf
    simp [parse_note, hnan, hc, hf]
  · intro hnan hc hf
    simp [parse_note, hnan, hc, hf]

/-- C4 witness: `parse_note "Coffee|5%" '|'` parses to
`("Coffee", 0.05)`. -/
theorem parse_note_total_spec_witness :
    ("Coffee|5%" : String) ≠ "nan"
  ∧ pyContains "Coffee|5%" '|' = true
  ∧ parse_note "Coffee|5%" '|' = ("Coffee", 1 / 20) := by
  refine ⟨by decide, by decide, ?_⟩
  have h := (parse_note_total_spec "Coffee|5%" '|'
      ((1 : ℚ) * ((5 : ℕ) : ℚ))).2.2.2 (by decide) (by decide) rfl
  refine h.trans (Prod.ext (by decide) ?_)
  show (1 : ℚ) * ((5 : ℕ) : ℚ) / 100 = 1 / 20
  norm_num

/-! ## Claim C7: the cashback invariant -/

def c7_raw : List RawRecord :=
  [⟨0, "Shopping", -3, "A|500%", "Default"⟩]

/-- C7 counterexample: the parser never clamps the parsed rate, so the
annotation `|500%` normalizes to `cashback_percent = 5`, outside `[0,1]`. -/
theorem cashback_percent_counterexample :
    (read_month c7_raw).map (fun t => t.cashbackPct)
        = [(1 : ℚ) * ((500 : ℕ) : ℚ) / 100]
  ∧ ¬ ((1 : ℚ) * ((500 : ℕ) : ℚ) / 100 ≤ 1) :=
  ⟨rfl, by norm_num⟩

/-- C7 (amended): for every normalized transaction,
`cashback_reward = amount * cashback_percent`; the percent defaults to 0
when the annotation is absent or unparsable but is not constrained to
`[0,1]` (any parsed number divided by 100 passes through). -/
theorem cashback_reward_invariant (rows : List RawRecord) (t : Txn)
    (h : t ∈ read_month rows) :
    t.cashbackReward = t.amount * t.cashbackPct := by
  unfold read_month at h
  obtain ⟨r, _, rfl⟩ := List.mem_map.mp h
  rfl

def c7w_raw : List RawRecord :=
  [⟨0, "Groceries", -40, "plain", "Default"⟩]

def c7w_txn : Txn := ⟨0, "Groceries", 40, "plain", 0, 0, "Default"⟩

/-- C7 witness: the normalization of a plain-note record yields a
transaction whose reward is its amount times its (zero) percent. -/
theorem cashback_reward_invariant_witness :
    c7w_txn ∈ read_month c7w_raw
  ∧ c7w_txn.cashbackReward = c7w_txn.amount * c7w_txn.cashbackPct := by
  have e : read_month c7w_raw = [c7w_txn] := by
    show [(⟨0, "Groceries", -(-40 : ℚ), "plain", 0, -(-40 : ℚ) * 0,
      "Default"⟩ : Txn)] = [c7w_txn]
    norm_num [c7w_txn]
  have hm : c7w_txn ∈ read_month c7w_raw := by
    rw [e]
    exact List.mem_cons_self _ _
  exact ⟨hm, cashback_reward_invariant c7w_raw c7w_txn hm⟩

/-! ## Claim C5: a missing month is skipped, the run continues -/

/-- C5: when month 6's source file is absent (`fs 6 = none`, the
not-found condition — distinct from present-but-empty data, `some []`,
which is stored and succeeds) while every other month is present,
`handle_month` returns `False` for month 6 without storing anything and
`True` for the other eleven, the run over all twelve months stores
exactly those eleven months' normalized data in order, and the yearly
rollup concatenates exactly those eleven stored sets. -/
theorem missing_month_skipped (fs : ℕ → Option (List RawRecord))
    (d : ℕ → List RawRecord) (h6 : fs 6 = none)
    (hm : ∀ m, m ≠ 6 → fs m = some (d m)) :
    (run_months fs).1
        = ((List.range' 1 12).filter (fun m => m ≠ 6)).map
            (fun m => (m, read_month (d m)))
      ∧ (run_months fs).2 = (List.range' 1 12).map (fun m => decide (m ≠ 6))
      ∧ summary_rollup (run_months fs).1
          = (((List.range' 1 12).filter (fun m => m ≠ 6)).map
              (fun m => read_month (d m))).flatten
      ∧ (∀ s, handle_month fs s 6 = (s, false))
      ∧ (∀ s m, fs m = some [] →
          handle_month fs s m = (s ++ [(m, [])], true)) := by
  have h1 := hm 1 (by norm_num)
  have h2 := hm 2 (by norm_num)
  have h3 := hm 3 (by norm_num)
  have h4 := hm 4 (by norm_num)
  have h5 := hm 5 (by norm_num)
  have h7 := hm 7 (by norm_num)
  have h8 := hm 8 (by norm_num)
  have h9 := hm 9 (by norm_num)
  have h10 := hm 10 (by norm_num)
  have h11 := hm 11 (by norm_num)
  have h12 := hm 12 (by norm_num)
  have hrun :
      run_months fs
        = ([(1, read_month (d 1)), (2, read_month (d 2)),
            (3, read_month (d 3)), (4, read_month (d 4)),
            (5, read_month (d 5)), (7, read_month (d 7)),
            (8, read_month (d 8)), (9, read_month (d 9)),
            (10, read_month (d 10)), (11, read_month (d 11)),
            (12, read_month (d 12))],
           [true, true, true, true, true, false,
            true, true, true, true, true, true]) := by
    unfold run_months
    simp only [show List.range' 1 12 = [1, 2, 3, 4, 5, 6, 7, 8, 9, 10, 11, 12]
        from rfl,
      List.foldl_cons, List.foldl_nil, handle_month,
      h1, h2, h3, h4, h5, h6, h7, h8, h9, h10, h11, h12]
    simp
  have hfil : (List.range' 1 12).filter (fun m => decide (m ≠ 6))
      = [1, 2, 3, 4, 5, 7, 8, 9, 10, 11, 12] := by decide
  refine ⟨?_, ?_, ?_, ?_, ?_⟩
  · rw [hrun]
    show _ = ((List.range' 1 12).filter (fun m => decide (m ≠ 6))).map
      (fun m => (m, read_month (d m)))
    rw [hfil]
    rfl
  · rw [hrun]
    show [true, true, true, true, true, false,
        true, true, true, true, true, true]
      = (List.range' 1 12).map (fun m => decide (m ≠ 6))
    decide
  · rw [hrun]
    show _ = (((List.range' 1 12).filter (fun m => decide (m ≠ 6))).map
      (fun m => read_month (d m))).flatten
    rw [hfil]
    rfl
  · intro s
    unfold handle_month
    rw [h6]
  · intro s m hempty
    unfold handle_month
    rw [hempty]
    rfl

def c5_fs : ℕ → Option (List RawRecord) :=
  fun m => if m = 6 then none else some [⟨m, "Fuel", -5, "", "Default"⟩]

def c5_d : ℕ → List RawRecord :=
  fun m => [⟨m, "Fuel", -5, "", "Default"⟩]

/-- C5 witness: over a year whose month 6 file is missing, the flags are
eleven `True`s and one `False` and the stored months are exactly
1–5, 7–12 in order. -/
theorem missing_month_skipped_witness :
    (run_months c5_fs).2
        = [true, true, true, true, true, false,
           true, true, true, true, true, true]
  ∧ (run_months c5_fs).1.map (fun p => p.1)
      = [1, 2, 3, 4, 5, 7, 8, 9, 10, 11, 12] := by
  have h := missing_month_skipped c5_fs c5_d (by simp [c5_fs])
    (fun m hm => by simp [c5_fs, c5_d, hm])
  constructor
  · rw [h.2.1]
    decide
  · rw [h.1, List.map_map]
    show (((List.range' 1 12).filter (fun m => m ≠ 6)).map
      (fun m : ℕ => m)) = [1, 2, 3, 4, 5, 7, 8, 9, 10, 11, 12]
    decide

/-! ## Claim C10: resetting without a starting snapshot raises -/

/-- C10: when no starting-balances file exists for the current year
(`get_balances` receives `none`) and no snapshot was carried forward
(the year is absent from `starting_balances`), `get_balances` leaves the
state untouched — in particular the year still has no entry — and the
subsequent `reset_balances` call raises (`none`, the `KeyError` of
`self.starting_balances[self.year]`). -/
theorem reset_balances_missing_year (s : LedgerState)
    (h : year_lookup s.starting_balances s.year = none) :
    get_balances none s = s
  ∧ year_lookup (get_balances none s).starting_balances s.year = none
  ∧ reset_balances (get_balances none s) = none := by
  refine ⟨rfl, h, ?_⟩
  show reset_balances s = none
  unfold reset_balances
  rw [h]

/-- C10 witness: the first processed year (2024) with no balances file
and an empty carried-forward table: `reset_balances` yields the
`KeyError` marker. -/
theorem reset_balances_missing_year_witness :
    year_lookup (⟨2024, [], []⟩ : LedgerState).starting_balances 2024 = none
  ∧ reset_balances (get_balances none ⟨2024, [], []⟩) = none :=
  ⟨rfl, (reset_balances_missing_year ⟨2024, [], []⟩ rfl).2.2⟩

end TxnTracker
